import Mathlib

/-!
Formalisation of the libtess2 tessellation engine surface declared in
src/Sources/libtess2/include/tesselator.h.  The repository ships only the
public header; the engine behind it (mesh, priority queue, sweep, output
formatter) is modelled here from the design document, faithful to its words,
with every definition executable.  Coordinates are embedded as exact integers
on the working plane; TESSindex is a C int, so TESS_UNDEF = ~(TESSindex)0
is the integer -1.
-/

namespace LibTess

/-- TESSindex is a C int (tesselator.h line 140); TESS_UNDEF is the all-ones
bit pattern, i.e. the integer -1 (tesselator.h line 145). -/
def TESS_UNDEF : Int := -1

/-- The winding rules of tesselator.h lines 50-57. -/
inductive TessWindingRule
  | odd
  | nonzero
  | positive
  | negative
  | absGeqTwo
deriving DecidableEq

/-- The output element types of tesselator.h lines 132-137. -/
inductive TessElementType
  | polygons
  | connectedPolygons
  | boundaryContours
deriving DecidableEq

/-- Twice the signed area of the triangle a b c: the orientation / leftness
predicate of the geometry component (spec section 2, item 1). -/
def orient (a b c : Int × Int) : Int :=
  (b.1 - a.1) * (c.2 - a.2) - (b.2 - a.2) * (c.1 - a.1)

/-- Every triple of points of the list lies on one line. -/
def allColinear (pts : List (Int × Int)) : Bool :=
  pts.all fun a => pts.all fun b => pts.all fun c => orient a b c == 0

/-- A degenerate input contour in the sense of spec section 8: fewer than 3
points, or all points colinear. -/
def isDegenerateContour (pts : List (Int × Int)) : Bool :=
  decide (pts.length < 3) || allColinear pts

/-- An output vertex: its working-plane position and its origin index into the
original input ordering, none when the vertex was synthesized at an edge
intersection (spec section 3, Vertex; tesselator.h lines 229-233). -/
structure OutVertex where
  pos : Int × Int
  origIdx : Option Nat
deriving DecidableEq

/-- The allocator configuration that matters to the engine's failure behaviour
(TESSalloc, tesselator.h lines 165-178): whether memrealloc is present
(growable storage) and how many extra vertices were pre-reserved for
intersections. -/
structure TessAlloc where
  growable : Bool
  extraVertices : Nat
deriving DecidableEq

/-- The result buffers of one successful tessellation run, read by the
tessGet* accessors (tesselator.h lines 223-239). -/
structure TessOutput where
  vertices : List OutVertex
  vertexIndices : List Int
  elements : List Int
  elementCount : Nat
deriving DecidableEq

/-- A tesselator instance: allocator configuration, the contours added so far
(each point already carrying its insertion index), the next insertion index,
the no-empty-polygons flag, and the output of the last successful run. -/
structure Tesselator where
  alloc : TessAlloc
  contours : List (List OutVertex)
  nextIdx : Nat
  noEmptyPolygons : Bool
  output : Option TessOutput
deriving DecidableEq

/-- tessNewTess (tesselator.h line 186): a fresh instance; the default
malloc-based allocator can always grow. -/
def tessNewTess (alloc : Option TessAlloc) : Tesselator :=
  { alloc := alloc.getD { growable := true, extraVertices := 0 }
    contours := []
    nextIdx := 0
    noEmptyPolygons := false
    output := none }

/-- Points of a contour receive consecutive insertion indices starting at
start (tesselator.h lines 229-232: every point added using tessAddContour
gets a new index starting at 0). -/
def assignIndices (start : Nat) : List (Int × Int) → List OutVertex
  | [] => []
  | p :: ps => { pos := p, origIdx := some start } :: assignIndices (start + 1) ps

/-- tessAddContour (tesselator.h line 203): appends one closed contour and
does not mutate previously added contours (spec section 6). -/
def tessAddContour (t : Tesselator) (pts : List (Int × Int)) : Tesselator :=
  { t with
    contours := t.contours ++ [assignIndices t.nextIdx pts]
    nextIdx := t.nextIdx + pts.length }

/-- Parameters of one tessTesselate call (tesselator.h line 221). -/
structure TessParams where
  windingRule : TessWindingRule
  elementType : TessElementType
  polySize : Nat
  vertexSize : Nat
  normal : Option (Int × Int × Int)
deriving DecidableEq

/-- The error taxonomy of spec section 7: allocation failure or structural
invariant violation, the only fatal conditions. -/
inductive TessError
  | allocFailure
  | invariantViolation
deriving DecidableEq

/-- A face produced by the sweep, carrying its accumulated winding number and
its boundary as indices into the output vertex list (spec section 3, Face,
and section 4.5). -/
structure SweptFace where
  winding : Int
  boundary : List Nat
deriving DecidableEq

/-- Working-plane coordinates of a list of vertices. -/
def coordsOf (c : List OutVertex) : List (Int × Int) := c.map (·.pos)

/-- Consecutive edges of a closed contour, wrapping around at the end. -/
def cycleEdges {α : Type} : List α → List (α × α)
  | [] => []
  | a :: rest => (a :: rest).zip (rest ++ [a])

/-- Twice the signed area of a closed contour (shoelace formula). -/
def signedArea2 (pts : List (Int × Int)) : Int :=
  ((cycleEdges pts).map fun e => e.1.1 * e.2.2 - e.2.1 * e.1.2).sum

/-- Winding contributed by one simple contour: +1 when wound counterclockwise
on the working plane, -1 when clockwise. -/
def contourWinding (c : List OutVertex) : Int :=
  if 0 ≤ signedArea2 (coordsOf c) then 1 else -1

/-- Modelled from the spec: the sweep engine's face output (sweep.c is not in
src/).  Spec sections 4.4-4.5 and 8: the sweep partitions the plane into
faces with accumulated winding numbers; a degenerate contour (fewer than 3
points, or all points colinear) encloses no area and so contributes no face;
a non-degenerate contour encloses a region of winding plus or minus one.
Boundaries are
indices into the flattened input vertex list, offset per contour. -/
def sweepAux (off : Nat) : List (List OutVertex) → List SweptFace
  | [] => []
  | c :: cs =>
    if isDegenerateContour (coordsOf c) then sweepAux (off + c.length) cs
    else { winding := contourWinding c, boundary := List.range' off c.length } ::
      sweepAux (off + c.length) cs

/-- Faces produced by the sweep over all input contours. -/
def sweepFaces (contours : List (List OutVertex)) : List SweptFace :=
  sweepAux 0 contours

/-- The winding-rule classification of spec section 4.5: is a face with
accumulated winding number w interior under the rule? -/
def windingInside (rule : TessWindingRule) (w : Int) : Bool :=
  match rule with
  | .odd => decide (w % 2 ≠ 0)
  | .nonzero => decide (w ≠ 0)
  | .positive => decide (0 < w)
  | .negative => decide (w < 0)
  | .absGeqTwo => decide (2 ≤ w.natAbs)

/-- The region builder (spec section 4.5): faces whose winding does not
satisfy the rule are discarded (zapFace); the interior faces remain. -/
def applyWindingRule (rule : TessWindingRule) (faces : List SweptFace) : List SweptFace :=
  faces.filter fun f => windingInside rule f.winding

/-- The vertex index buffer (tesselator.h lines 229-233): one entry per output
vertex; an original vertex carries its insertion index, a synthesized vertex
carries TESS_UNDEF. -/
def vertexIndexBuffer (vs : List OutVertex) : List Int :=
  vs.map fun v =>
    match v.origIdx with
    | some i => (i : Int)
    | none => TESS_UNDEF

/-- One TESS_POLYGONS element: the polygon's vertex indices, padded with
TESS_UNDEF up to polySize slots (tesselator.h lines 62-65). -/
def padPoly (polySize : Nat) (p : List Nat) : List Int :=
  p.map (fun (i : Nat) => (i : Int)) ++ List.replicate (polySize - p.length) TESS_UNDEF

/-- The flat TESS_POLYGONS element buffer: polySize index slots per element. -/
def buildPolygonsBuffer (polySize : Nat) (polys : List (List Nat)) : List Int :=
  (polys.map (padPoly polySize)).flatten

/-- Fan step of the monotone triangulation: triangles (v0, vprev, v) walking
the remaining boundary. -/
def fanAux (v0 : Nat) : Nat → List Nat → List (List Nat)
  | _, [] => []
  | vprev, v :: rest => [v0, vprev, v] :: fanAux v0 v rest

/-- Modelled from the spec: the monotone-face triangulator (tess.c is not in
src/), as a fan over the face boundary (spec section 4.6). -/
def fanTriangulate : List Nat → List (List Nat)
  | v0 :: v1 :: rest => fanAux v0 v1 rest
  | _ => []

/-- Directed boundary edges of an output polygon given by vertex indices. -/
def dirEdges (p : List Nat) : List (Nat × Nat) := cycleEdges p

/-- Index of the first polygon whose boundary contains the directed edge e:
the face on the other side of the matching half-edge. -/
def findPolyWithEdge (polys : List (List Nat)) (e : Nat × Nat) : Option Nat :=
  match polys with
  | [] => none
  | q :: qs =>
    if e ∈ dirEdges q then some 0
    else (findPolyWithEdge qs e).map (· + 1)

/-- The neighbour index of the k-th edge of polygon a (tesselator.h lines
82-87): the polygon owning the opposite half-edge, or TESS_UNDEF when the
edge is a boundary edge. -/
def neighborIndex (polys : List (List Nat)) (a k : Nat) : Int :=
  match (dirEdges (polys.getD a []))[k]? with
  | none => TESS_UNDEF
  | some e =>
    match findPolyWithEdge polys (e.2, e.1) with
    | some b => (b : Int)
    | none => TESS_UNDEF

/-- The polySize neighbour slots of element a in a TESS_CONNECTED_POLYGONS
buffer; slots past the polygon's arity are TESS_UNDEF. -/
def neighborSlots (polys : List (List Nat)) (polySize a : Nat) : List Int :=
  (List.range polySize).map fun k =>
    if k < (polys.getD a []).length then neighborIndex polys a k else TESS_UNDEF

/-- The flat TESS_CONNECTED_POLYGONS buffer: polySize vertex slots then
polySize neighbour slots per element (tesselator.h lines 82-87). -/
def buildConnectedBuffer (polySize : Nat) (polys : List (List Nat)) : List Int :=
  ((List.range polys.length).map fun a =>
    padPoly polySize (polys.getD a []) ++ neighborSlots polys polySize a).flatten

/-- The (base index, vertex count) pairs of a TESS_BOUNDARY_CONTOURS element
buffer (tesselator.h lines 112-115): contours laid out consecutively. -/
def boundaryElems (base : Nat) : List (List Nat) → List (Nat × Nat)
  | [] => []
  | c :: cs => (base, c.length) :: boundaryElems (base + c.length) cs

/-- Flat serialisation of (base, count) pairs into the element buffer. -/
def flattenPairs (l : List (Nat × Nat)) : List Int :=
  (l.map fun pr => [(pr.1 : Int), (pr.2 : Int)]).flatten

/-- Every second entry of a flat (base, count) element buffer: the vertex
count fields. -/
def sumCounts : List Int → Int
  | _ :: c :: rest => c + sumCounts rest
  | _ => 0

/-- All directed contour edges of the input, as coordinate pairs. -/
def contourEdges (contours : List (List OutVertex)) : List ((Int × Int) × (Int × Int)) :=
  (contours.map fun c => cycleEdges (coordsOf c)).flatten

/-- Proper crossing test for two segments: each straddles the other's line
(spec section 4.4, IntersectionVertex). -/
def segmentsCross (s t : (Int × Int) × (Int × Int)) : Bool :=
  decide (orient s.1 s.2 t.1 * orient s.1 s.2 t.2 < 0) &&
  decide (orient t.1 t.2 s.1 * orient t.1 t.2 s.2 < 0)

/-- Number of unordered pairs of list entries satisfying f. -/
def countPairs {α : Type} (f : α → α → Bool) : List α → Nat
  | [] => 0
  | x :: xs => (xs.filter (f x)).length + countPairs f xs

/-- Modelled from the spec: how many vertices the sweep will synthesize, one
per properly crossing pair of input edges (spec section 5: storage must be
pre-sized including slack for intersection-generated vertices). -/
def intersectionDemand (contours : List (List OutVertex)) : Nat :=
  countPairs segmentsCross (contourEdges contours)

/-- Placeholder vertex for out-of-range index resolution. -/
def defaultVertex : OutVertex := { pos := (0, 0), origIdx := none }

/-- Modelled from the spec: the output formatter (tess.c is not in src/),
serialising the interior faces into the element format requested
(tesselator.h lines 59-137, spec section 4.6). -/
def formatOutput (p : TessParams) (allVerts : List OutVertex)
    (interior : List SweptFace) : TessOutput :=
  match p.elementType with
  | .polygons =>
    let tris := (interior.map (·.boundary)).flatMap fanTriangulate
    { vertices := allVerts
      vertexIndices := vertexIndexBuffer allVerts
      elements := buildPolygonsBuffer p.polySize tris
      elementCount := tris.length }
  | .connectedPolygons =>
    let tris := (interior.map (·.boundary)).flatMap fanTriangulate
    { vertices := allVerts
      vertexIndices := vertexIndexBuffer allVerts
      elements := buildConnectedBuffer p.polySize tris
      elementCount := tris.length }
  | .boundaryContours =>
    let bnds := interior.map (·.boundary)
    let bverts := (bnds.map fun b => b.map fun i => allVerts.getD i defaultVertex).flatten
    { vertices := bverts
      vertexIndices := vertexIndexBuffer bverts
      elements := flattenPairs (boundaryElems 0 bnds)
      elementCount := bnds.length }

/-- Modelled from the spec: one tessellation run (tess.c is not in src/).
Spec sections 5 and 7: with no realloc hook, exceeding the pre-reserved
intersection-vertex slack is a fatal allocation failure; otherwise the sweep
runs, the region builder applies the winding rule, and the formatter builds
the output buffers. -/
def tessRun (t : Tesselator) (p : TessParams) : Except TessError TessOutput :=
  if !t.alloc.growable && decide (t.alloc.extraVertices < intersectionDemand t.contours) then
    .error .allocFailure
  else
    .ok (formatOutput p t.contours.flatten
      (applyWindingRule p.windingRule (sweepFaces t.contours)))

/-- tessTesselate (tesselator.h lines 205-221): returns 1 on success with the
output buffers installed, 0 on failure with no valid output buffers. -/
def tessTesselate (t : Tesselator) (p : TessParams) : Int × Tesselator :=
  match tessRun t p with
  | .ok out => (1, { t with output := some out })
  | .error _ => (0, { t with output := none })

/-- tessGetVertexCount (tesselator.h line 224). -/
def tessGetVertexCount (t : Tesselator) : Nat :=
  match t.output with
  | some o => o.vertices.length
  | none => 0

/-- tessGetVertices (tesselator.h line 227). -/
def tessGetVertices (t : Tesselator) : List OutVertex :=
  match t.output with
  | some o => o.vertices
  | none => []

/-- tessGetVertexIndices (tesselator.h line 233). -/
def tessGetVertexIndices (t : Tesselator) : List Int :=
  match t.output with
  | some o => o.vertexIndices
  | none => []

/-- tessGetElementCount (tesselator.h line 236). -/
def tessGetElementCount (t : Tesselator) : Nat :=
  match t.output with
  | some o => o.elementCount
  | none => 0

/-- tessGetElements (tesselator.h line 239). -/
def tessGetElements (t : Tesselator) : List Int :=
  match t.output with
  | some o => o.elements
  | none => []

/-- tessGetNoEmptyPolygons (tesselator.h line 242). -/
def tessGetNoEmptyPolygons (t : Tesselator) : Bool := t.noEmptyPolygons

/-- tessSetNoEmptyPolygons (tesselator.h line 246). -/
def tessSetNoEmptyPolygons (t : Tesselator) (v : Bool) : Tesselator :=
  { t with noEmptyPolygons := v }

/-- A fresh instance with every contour of the list added in order. -/
def buildTess (css : List (List (Int × Int))) : Tesselator :=
  css.foldl tessAddContour (tessNewTess none)

/-- A sweep event: primary sweep coordinate, secondary coordinate, and the
stable insertion sequence number used as the final tie-break (spec section 3,
Sweep event). -/
abbrev Event := Int × Int × Nat

/-- The strict total order on sweep events: lexicographic on (primary
coordinate, secondary coordinate, insertion sequence number). -/
def eventLt (a b : Event) : Prop :=
  a.1 < b.1 ∨ (a.1 = b.1 ∧ (a.2.1 < b.2.1 ∨ (a.2.1 = b.2.1 ∧ a.2.2 < b.2.2)))

instance : DecidableRel eventLt := fun a b => by
  unfold eventLt; exact inferInstance

/-- The reflexive closure of the sweep-event order, used by the priority
queue's ordered insertion. -/
def eventLE (a b : Event) : Prop :=
  eventLt a b ∨ a = b

instance : DecidableRel eventLE := fun a b => by
  unfold eventLE; exact inferInstance

/-- State of the sweep's event loop: the pending priority queue, the
remaining budget of synthetic intersection events (one per edge pair not yet
found to cross), and counters for processed and inserted events. -/
structure SweepState where
  events : List Event
  budget : Nat
  inserted : Nat
  processed : Nat
deriving DecidableEq

/-- Priority-queue insertion of a batch of new events. -/
def pqInsertAll (fresh rest : List Event) : List Event :=
  fresh.foldr (fun x l => List.orderedInsert eventLE x l) rest

/-- Modelled from the spec: the sweep engine's event loop (sweep.c is not in
src/).  Spec sections 4.4 and 5: repeatedly extract the minimum pending
event; processing it may discover intersections and insert synthetic events,
but only as many in total as there are edge pairs (the budget); the loop
terminates when the queue is empty.  The generator gen stands for the
intersection-detection logic, arbitrary here. -/
def runSweep (gen : Event → List Event) (s : SweepState) : SweepState :=
  match hev : s.events with
  | [] => s
  | e :: rest =>
    runSweep gen
      { events := pqInsertAll ((gen e).take s.budget) rest
        budget := s.budget - ((gen e).take s.budget).length
        inserted := s.inserted + ((gen e).take s.budget).length
        processed := s.processed + 1 }
termination_by s.events.length + 2 * s.budget
decreasing_by
  have hlen : ∀ (fr re : List Event), (pqInsertAll fr re).length = fr.length + re.length := by
    intro fr
    induction fr with
    | nil => intro re; simp [pqInsertAll]
    | cons x xs ih =>
      intro re
      have hstep : pqInsertAll (x :: xs) re = List.orderedInsert eventLE x (pqInsertAll xs re) := rfl
      rw [hstep, List.orderedInsert_length, ih re, List.length_cons]
      omega
  have htake := List.length_take_le s.budget (gen e)
  simp only [hlen, hev, List.length_cons]
  omega

/-- Sweep events of the input vertices, numbered by insertion sequence. -/
def initEventsAux (seq : Nat) : List OutVertex → List Event
  | [] => []
  | v :: vs => (v.pos.1, v.pos.2, seq) :: initEventsAux (seq + 1) vs

/-- The number of unordered pairs of input edges: the spec's bound on the
number of synthetic intersection events (spec section 5). -/
def edgePairBudget (contours : List (List OutVertex)) : Nat :=
  (contourEdges contours).length * ((contourEdges contours).length - 1) / 2

/-- The sweep loop's initial state for a set of input contours: all input
vertices queued, the intersection budget set to the number of edge pairs. -/
def initSweepState (contours : List (List OutVertex)) : SweepState :=
  { events := pqInsertAll (initEventsAux 0 contours.flatten) []
    budget := edgePairBudget contours
    inserted := 0
    processed := 0 }

/-- Well-formedness of an output polygon mesh: a directed half-edge belongs
to at most one polygon (spec section 3: every half-edge has exactly one twin,
and each directed edge bounds one face). -/
def edgesDisjoint (polys : List (List Nat)) : Prop :=
  ∀ i, i < polys.length → ∀ j, j < polys.length → i ≠ j →
    ∀ e ∈ dirEdges (polys.getD i []), e ∉ dirEdges (polys.getD j [])

instance (polys : List (List Nat)) : Decidable (edgesDisjoint polys) :=
  @Nat.decidableBallLT polys.length
    (fun i _ => ∀ j, j < polys.length → i ≠ j →
      ∀ e ∈ dirEdges (polys.getD i []), e ∉ dirEdges (polys.getD j []))
    (fun _ _ => inferInstance)

theorem pqInsertAll_length (fresh rest : List Event) :
    (pqInsertAll fresh rest).length = fresh.length + rest.length := by
  induction fresh with
  | nil => simp [pqInsertAll]
  | cons x xs ih =>
    have hstep : pqInsertAll (x :: xs) rest =
        List.orderedInsert eventLE x (pqInsertAll xs rest) := rfl
    rw [hstep, List.orderedInsert_length, ih, List.length_cons]
    omega

/-- C10: setting the no-empty-polygons flag and reading it back returns
exactly the value set, and the setter changes no other observable state of
the instance: contours, insertion counter, allocator and result buffers are
untouched. -/
theorem noEmptyPolygons_set_get :
    (∀ (t : Tesselator) (v : Bool),
      tessGetNoEmptyPolygons (tessSetNoEmptyPolygons t v) = v) ∧
    (∀ (t : Tesselator) (v : Bool),
      (tessSetNoEmptyPolygons t v).contours = t.contours) ∧
    (∀ (t : Tesselator) (v : Bool),
      (tessSetNoEmptyPolygons t v).nextIdx = t.nextIdx) ∧
    (∀ (t : Tesselator) (v : Bool),
      (tessSetNoEmptyPolygons t v).alloc = t.alloc) ∧
    (∀ (t : Tesselator) (v : Bool),
      (tessSetNoEmptyPolygons t v).output = t.output) :=
  ⟨fun _ _ => rfl, fun _ _ => rfl, fun _ _ => rfl, fun _ _ => rfl, fun _ _ => rfl⟩

/-- C2: the region builder classifies a face interior exactly when its
accumulated winding number satisfies the winding rule — TESS_WINDING_ODD iff
the winding is odd, NONZERO iff it is nonzero, POSITIVE iff it is positive,
NEGATIVE iff it is negative, ABS_GEQ_TWO iff its absolute value is at least
two — and a non-interior face is discarded from the output. -/
theorem windingRule_classification :
    (∀ (faces : List SweptFace) (f : SweptFace),
      f ∈ applyWindingRule .odd faces ↔ f ∈ faces ∧ Odd f.winding) ∧
    (∀ (faces : List SweptFace) (f : SweptFace),
      f ∈ applyWindingRule .nonzero faces ↔ f ∈ faces ∧ f.winding ≠ 0) ∧
    (∀ (faces : List SweptFace) (f : SweptFace),
      f ∈ applyWindingRule .positive faces ↔ f ∈ faces ∧ 0 < f.winding) ∧
    (∀ (faces : List SweptFace) (f : SweptFace),
      f ∈ applyWindingRule .negative faces ↔ f ∈ faces ∧ f.winding < 0) ∧
    (∀ (faces : List SweptFace) (f : SweptFace),
      f ∈ applyWindingRule .absGeqTwo faces ↔ f ∈ faces ∧ 2 ≤ |f.winding|) ∧
    (∀ (rule : TessWindingRule) (faces : List SweptFace) (f : SweptFace),
      f ∈ faces → windingInside rule f.winding = false →
        f ∉ applyWindingRule rule faces) := by
  refine ⟨?_, ?_, ?_, ?_, ?_, ?_⟩
  · intro faces f
    simp only [applyWindingRule, List.mem_filter, windingInside, decide_eq_true_eq,
      Int.odd_iff]
    exact and_congr_right fun _ => by omega
  · intro faces f
    simp only [applyWindingRule, List.mem_filter, windingInside, decide_eq_true_eq]
  · intro faces f
    simp only [applyWindingRule, List.mem_filter, windingInside, decide_eq_true_eq]
  · intro faces f
    simp only [applyWindingRule, List.mem_filter, windingInside, decide_eq_true_eq]
  · intro faces f
    simp only [applyWindingRule, List.mem_filter, windingInside, decide_eq_true_eq]
    refine and_congr_right fun _ => ?_
    rw [Int.abs_eq_natAbs]
    omega
  · intro rule faces f hmem hfalse
    simp only [applyWindingRule, List.mem_filter, hfalse]
    intro hcontra
    exact absurd hcontra.2 (by simp)

/-- C1: tessTesselate returns 1 (success) or 0 (failure); a 0 return happens
exactly when the run fails, the only failure modes are allocation failure and
structural invariant violation, and a failed call installs no output buffers,
so every accessor reads empty after a 0 return. -/
theorem tessTesselate_return_contract :
    (∀ (t : Tesselator) (p : TessParams),
      (tessTesselate t p).1 = 1 ∨ (tessTesselate t p).1 = 0) ∧
    (∀ (t : Tesselator) (p : TessParams),
      (tessTesselate t p).1 = 0 →
        (tessTesselate t p).2.output = none ∧
        (tessRun t p = .error .allocFailure ∨
         tessRun t p = .error .invariantViolation)) ∧
    (∀ (t : Tesselator) (p : TessParams) (out : TessOutput),
      tessRun t p = .ok out →
        (tessTesselate t p).1 = 1 ∧ (tessTesselate t p).2.output = some out) ∧
    (∀ (t : Tesselator) (p : TessParams),
      (tessTesselate t p).1 = 0 →
        tessGetVertexCount (tessTesselate t p).2 = 0 ∧
        tessGetVertices (tessTesselate t p).2 = [] ∧
        tessGetVertexIndices (tessTesselate t p).2 = [] ∧
        tessGetElementCount (tessTesselate t p).2 = 0 ∧
        tessGetElements (tessTesselate t p).2 = []) := by
  refine ⟨?_, ?_, ?_, ?_⟩
  · intro t p
    cases h : tessRun t p with
    | ok out => left; simp [tessTesselate, h]
    | error e => right; simp [tessTesselate, h]
  · intro t p hz
    cases h : tessRun t p with
    | ok out => simp [tessTesselate, h] at hz
    | error e =>
      refine ⟨by simp [tessTesselate, h], ?_⟩
      cases e
      · exact Or.inl rfl
      · exact Or.inr rfl
  · intro t p out h
    simp [tessTesselate, h]
  · intro t p hz
    cases h : tessRun t p with
    | ok out => simp [tessTesselate, h] at hz
    | error e =>
      simp [tessTesselate, h, tessGetVertexCount, tessGetVertices,
        tessGetVertexIndices, tessGetElementCount, tessGetElements]

theorem padPoly_length (polySize : Nat) (p : List Nat) (h : p.length ≤ polySize) :
    (padPoly polySize p).length = polySize := by
  simp [padPoly]
  omega

theorem padPoly_getElem?_lt (polySize : Nat) (p : List Nat) (j : Nat)
    (hjp : j < p.length) :
    (padPoly polySize p)[j]? = some ((p.getD j 0 : Nat) : Int) := by
  rw [padPoly, List.getElem?_append_left (by simpa using hjp), List.getElem?_map]
  have hv : p[j]? = some (p.getD j 0) := by
    rw [List.getD_eq_getElem?_getD]
    cases hq : p[j]? with
    | none => exact absurd (List.getElem?_eq_none_iff.mp hq) (by omega)
    | some v => rfl
  rw [hv]
  rfl

theorem padPoly_getElem?_pad (polySize : Nat) (p : List Nat) (j : Nat)
    (hp : p.length ≤ polySize) (hjp : p.length ≤ j) (hj : j < polySize) :
    (padPoly polySize p)[j]? = some TESS_UNDEF := by
  rw [padPoly, List.getElem?_append_right (by simpa using hjp)]
  rw [List.length_map, List.getElem?_replicate]
  have : j - p.length < polySize - p.length := by omega
  simp [this]

theorem buildPolygonsBuffer_cons (polySize : Nat) (q : List Nat) (qs : List (List Nat)) :
    buildPolygonsBuffer polySize (q :: qs) =
      padPoly polySize q ++ buildPolygonsBuffer polySize qs := by
  simp [buildPolygonsBuffer]

theorem buildPolygonsBuffer_length (polySize : Nat) (polys : List (List Nat))
    (hall : ∀ q ∈ polys, q.length ≤ polySize) :
    (buildPolygonsBuffer polySize polys).length = polys.length * polySize := by
  induction polys with
  | nil => simp [buildPolygonsBuffer]
  | cons q qs ih =>
    rw [buildPolygonsBuffer_cons, List.length_append,
      padPoly_length polySize q (hall q (by simp)),
      ih fun r hr => hall r (by simp [hr]), List.length_cons]
    ring

theorem buildPolygonsBuffer_getElem? (polySize : Nat) (polys : List (List Nat))
    (i j : Nat) (hall : ∀ q ∈ polys, q.length ≤ polySize)
    (hi : i < polys.length) (hj : j < polySize) :
    (buildPolygonsBuffer polySize polys)[i * polySize + j]? =
      (padPoly polySize (polys.getD i []))[j]? := by
  induction polys generalizing i with
  | nil => cases hi
  | cons q qs ih =>
    rw [buildPolygonsBuffer_cons]
    cases i with
    | zero =>
      rw [List.getD_cons_zero, Nat.zero_mul, Nat.zero_add]
      exact List.getElem?_append_left (by rw [padPoly_length polySize q (hall q (by simp))]; omega)
    | succ i' =>
      have hq : (padPoly polySize q).length = polySize :=
        padPoly_length polySize q (hall q (by simp))
      rw [List.getElem?_append_right (by rw [hq, Nat.succ_mul]; omega)]
      have harith : (i' + 1) * polySize + j - (padPoly polySize q).length =
          i' * polySize + j := by
        rw [hq, Nat.succ_mul]
        omega
      rw [harith, List.getD_cons_succ]
      exact ih i' (fun r hr => hall r (by simp [hr])) (by simpa using hi)

/-- C5: with element type TESS_POLYGONS the element buffer is flat with
exactly polySize index slots per element; the first slots of an element hold
the polygon's vertex indices in order, every remaining slot holds TESS_UNDEF,
and the used slots precede the padding. -/
theorem polygons_buffer_layout (polySize : Nat) (polys : List (List Nat)) (i j : Nat)
    (hall : ∀ q ∈ polys, q.length ≤ polySize)
    (hi : i < polys.length) (hj : j < polySize) :
    (buildPolygonsBuffer polySize polys).length = polys.length * polySize ∧
    (j < (polys.getD i []).length →
      (buildPolygonsBuffer polySize polys)[i * polySize + j]? =
        some (((polys.getD i []).getD j 0 : Nat) : Int)) ∧
    ((polys.getD i []).length ≤ j →
      (buildPolygonsBuffer polySize polys)[i * polySize + j]? = some TESS_UNDEF) := by
  have hq : (polys.getD i []).length ≤ polySize := by
    have : polys.getD i [] ∈ polys := by
      rw [List.getD_eq_getElem?_getD]
      cases hg : polys[i]? with
      | none => exact absurd (List.getElem?_eq_none_iff.mp hg) (by omega)
      | some q => simpa using List.getElem?_mem hg
    exact hall _ this
  refine ⟨buildPolygonsBuffer_length polySize polys hall, ?_, ?_⟩
  · intro hjp
    rw [buildPolygonsBuffer_getElem? polySize polys i j hall hi hj]
    exact padPoly_getElem?_lt polySize _ j hjp
  · intro hjp
    rw [buildPolygonsBuffer_getElem? polySize polys i j hall hi hj]
    exact padPoly_getElem?_pad polySize _ j hq hjp hj

/-- Concrete check of the TESS_POLYGONS layout: two elements with polySize 3,
the second a short polygon padded with one TESS_UNDEF slot after its used
slots. -/
theorem polygons_buffer_layout_witness :
    (buildPolygonsBuffer 3 [[0, 1, 2], [3, 4]]).length = 2 * 3 ∧
    (2 < ([[0, 1, 2], [3, 4]].getD 1 []).length →
      (buildPolygonsBuffer 3 [[0, 1, 2], [3, 4]])[1 * 3 + 2]? =
        some ((([[0, 1, 2], [3, 4]].getD 1 []).getD 2 0 : Nat) : Int)) ∧
    (([[0, 1, 2], [3, 4]].getD 1 []).length ≤ 2 →
      (buildPolygonsBuffer 3 [[0, 1, 2], [3, 4]])[1 * 3 + 2]? = some TESS_UNDEF) :=
  polygons_buffer_layout 3 [[0, 1, 2], [3, 4]] 1 2 (by decide) (by decide) (by decide)

theorem assignIndices_map_origIdx (start : Nat) (ps : List (Int × Int)) :
    (assignIndices start ps).map (·.origIdx) = (List.range' start ps.length).map some := by
  induction ps generalizing start with
  | nil => rfl
  | cons p ps ih =>
    have hr : List.range' start (ps.length + 1) = start :: List.range' (start + 1) ps.length := rfl
    simp only [assignIndices, List.map_cons, List.length_cons, hr]
    rw [ih]

theorem coordsOf_assignIndices (start : Nat) (ps : List (Int × Int)) :
    coordsOf (assignIndices start ps) = ps := by
  induction ps generalizing start with
  | nil => rfl
  | cons p ps ih =>
    simp only [assignIndices, coordsOf, List.map_cons]
    have := ih (start + 1)
    simp only [coordsOf] at this
    rw [this]

theorem vertexIndexBuffer_length (vs : List OutVertex) :
    (vertexIndexBuffer vs).length = vs.length := by
  simp [vertexIndexBuffer]

theorem buildTess_aux (css : List (List (Int × Int))) :
    ∀ (t : Tesselator),
      t.contours.flatten.map (·.origIdx) = (List.range' 0 t.nextIdx).map some →
      (css.foldl tessAddContour t).contours.flatten.map (·.origIdx) =
        (List.range' 0 (css.foldl tessAddContour t).nextIdx).map some := by
  induction css with
  | nil => intro t h; exact h
  | cons ps css ih =>
    intro t h
    rw [List.foldl_cons]
    apply ih
    have hr : List.range' 0 t.nextIdx ++ List.range' t.nextIdx ps.length =
        List.range' 0 (t.nextIdx + ps.length) := by
      have := List.range'_append 0 t.nextIdx ps.length 1
      simpa [Nat.add_comm] using this
    show ((t.contours ++ [assignIndices t.nextIdx ps]).flatten).map (·.origIdx) =
      (List.range' 0 (t.nextIdx + ps.length)).map some
    rw [List.flatten_append, List.map_append, h]
    simp only [List.flatten_cons, List.flatten_nil, List.append_nil]
    rw [assignIndices_map_origIdx, ← List.map_append, hr]

theorem tessRun_formatted (t : Tesselator) (p : TessParams) (out : TessOutput)
    (h : tessRun t p = .ok out) :
    out = formatOutput p t.contours.flatten
      (applyWindingRule p.windingRule (sweepFaces t.contours)) := by
  rw [tessRun] at h
  split at h
  · exact absurd h (by simp)
  · exact (Except.ok.inj h).symm

/-- C4: the vertex index buffer has exactly one entry per output vertex; an
output vertex that came from a tessAddContour point carries that point's
0-based insertion index — indices are assigned consecutively from 0 in order
of addition — and a vertex synthesized at an edge intersection carries
TESS_UNDEF; the buffers of a successful run are built exactly this way. -/
theorem vertexIndices_contract :
    (∀ (vs : List OutVertex), (vertexIndexBuffer vs).length = vs.length) ∧
    (∀ (vs : List OutVertex) (k : Nat) (v : OutVertex), vs[k]? = some v →
      (v.origIdx = none → (vertexIndexBuffer vs)[k]? = some TESS_UNDEF) ∧
      (∀ i : Nat, v.origIdx = some i → (vertexIndexBuffer vs)[k]? = some (i : Int))) ∧
    (∀ (css : List (List (Int × Int))),
      (buildTess css).contours.flatten.map (·.origIdx) =
        (List.range (buildTess css).nextIdx).map some) ∧
    (∀ (t : Tesselator) (p : TessParams) (out : TessOutput),
      tessRun t p = .ok out →
        out.vertexIndices = vertexIndexBuffer out.vertices ∧
        out.vertexIndices.length = out.vertices.length) := by
  refine ⟨vertexIndexBuffer_length, ?_, ?_, ?_⟩
  · intro vs k v hk
    constructor
    · intro hnone
      rw [vertexIndexBuffer, List.getElem?_map, hk]
      simp [hnone]
    · intro i hsome
      rw [vertexIndexBuffer, List.getElem?_map, hk]
      simp [hsome]
  · intro css
    rw [List.range_eq_range']
    exact buildTess_aux css (tessNewTess none) rfl
  · intro t p out h
    have hout := tessRun_formatted t p out h
    subst hout
    obtain ⟨rule, et, psz, vsz, nm⟩ := p
    cases et <;>
      exact ⟨rfl, vertexIndexBuffer_length _⟩

theorem flattenPairs_cons (pr : Nat × Nat) (l : List (Nat × Nat)) :
    flattenPairs (pr :: l) = (pr.1 : Int) :: (pr.2 : Int) :: flattenPairs l := rfl

theorem sumCounts_boundary (base : Nat) (bnds : List (List Nat)) :
    sumCounts (flattenPairs (boundaryElems base bnds)) =
      ((bnds.map List.length).sum : Int) := by
  induction bnds generalizing base with
  | nil => rfl
  | cons c cs ih =>
    rw [boundaryElems, flattenPairs_cons]
    show (c.length : Int) + sumCounts (flattenPairs (boundaryElems (base + c.length) cs)) = _
    rw [ih, List.map_cons, List.sum_cons]
    push_cast
    ring

/-- C7: with element type TESS_BOUNDARY_CONTOURS, after a successful
tesselate the vertex-count fields of the emitted (base, count) pairs sum to
exactly the value tessGetVertexCount returns. -/
theorem boundary_counts_total (t : Tesselator) (p : TessParams)
    (het : p.elementType = .boundaryContours)
    (hok : (tessTesselate t p).1 = 1) :
    sumCounts (tessGetElements (tessTesselate t p).2) =
      ((tessGetVertexCount (tessTesselate t p).2 : Nat) : Int) := by
  cases h : tessRun t p with
  | error e => simp [tessTesselate, h] at hok
  | ok out =>
    have h2 : tessTesselate t p = (1, { t with output := some out }) := by
      rw [tessTesselate, h]
    rw [h2]
    simp only [tessGetElements, tessGetVertexCount]
    have hout := tessRun_formatted t p out h
    subst hout
    obtain ⟨rule, et, psz, vsz, nm⟩ := p
    simp only at het
    subst het
    simp only [formatOutput]
    rw [sumCounts_boundary]
    simp only [List.length_flatten, List.map_map, Nat.cast_sum]
    congr 1
    congr 1
    apply List.map_congr_left
    intro b _
    simp [Function.comp]

/-- Concrete check for C7: a square contour tessellated as boundary contours
emits one (base, count) pair whose count field sums to the vertex count. -/
theorem boundary_counts_total_witness :
    sumCounts (tessGetElements
      (tessTesselate (buildTess [[(0, 0), (4, 0), (4, 4), (0, 4)]])
        ⟨.nonzero, .boundaryContours, 3, 2, none⟩).2) =
    ((tessGetVertexCount
      (tessTesselate (buildTess [[(0, 0), (4, 0), (4, 4), (0, 4)]])
        ⟨.nonzero, .boundaryContours, 3, 2, none⟩).2 : Nat) : Int) :=
  boundary_counts_total _ _ rfl (by decide)

theorem isDegenerate_of (pts : List (Int × Int))
    (h : pts.length < 3 ∨ allColinear pts = true) :
    isDegenerateContour pts = true := by
  rw [isDegenerateContour]
  rcases h with h | h
  · simp [h]
  · simp [h]

/-- C8: a single degenerate input contour — fewer than 3 points, or all
points colinear — tessellates successfully (return 1) and produces zero
output elements under every winding rule, element type and polySize. -/
theorem degenerate_contour_no_elements (pts : List (Int × Int)) (p : TessParams)
    (hdeg : pts.length < 3 ∨ allColinear pts = true) :
    (tessTesselate (tessAddContour (tessNewTess none) pts) p).1 = 1 ∧
    tessGetElementCount (tessTesselate (tessAddContour (tessNewTess none) pts) p).2 = 0 := by
  have hdg : isDegenerateContour (coordsOf (assignIndices 0 pts)) = true := by
    rw [coordsOf_assignIndices]
    exact isDegenerate_of pts hdeg
  have hfaces : sweepFaces (tessAddContour (tessNewTess none) pts).contours = [] := by
    show sweepAux 0 ([] ++ [assignIndices 0 pts]) = []
    rw [List.nil_append, sweepAux, if_pos hdg]
    rfl
  have hrun : tessRun (tessAddContour (tessNewTess none) pts) p =
      .ok (formatOutput p (tessAddContour (tessNewTess none) pts).contours.flatten
        (applyWindingRule p.windingRule
          (sweepFaces (tessAddContour (tessNewTess none) pts).contours))) := by
    rw [tessRun]
    rfl
  rw [hfaces] at hrun
  constructor
  · simp [tessTesselate, hrun]
  · simp only [tessTesselate, hrun, tessGetElementCount]
    obtain ⟨rule, et, psz, vsz, nm⟩ := p
    cases et <;> simp [formatOutput, applyWindingRule]

/-- Concrete check for C8: three colinear points tessellate to zero elements
with a success return. -/
theorem degenerate_contour_no_elements_witness :
    (tessTesselate (tessAddContour (tessNewTess none) [(0, 0), (1, 1), (2, 2)])
      ⟨.odd, .polygons, 3, 2, none⟩).1 = 1 ∧
    tessGetElementCount
      (tessTesselate (tessAddContour (tessNewTess none) [(0, 0), (1, 1), (2, 2)])
        ⟨.odd, .polygons, 3, 2, none⟩).2 = 0 :=
  degenerate_contour_no_elements [(0, 0), (1, 1), (2, 2)] ⟨.odd, .polygons, 3, 2, none⟩
    (Or.inr (by decide))

theorem findPolyWithEdge_some {polys : List (List Nat)} {e : Nat × Nat} {b : Nat}
    (h : findPolyWithEdge polys e = some b) :
    b < polys.length ∧ e ∈ dirEdges (polys.getD b []) := by
  induction polys generalizing b with
  | nil => simp [findPolyWithEdge] at h
  | cons q qs ih =>
    rw [findPolyWithEdge] at h
    by_cases hq : e ∈ dirEdges q
    · rw [if_pos hq] at h
      have hb : b = 0 := by
        cases h
        rfl
      subst hb
      exact ⟨by simp, by simpa using hq⟩
    · rw [if_neg hq] at h
      obtain ⟨b', hb', hbb⟩ := Option.map_eq_some'.mp h
      subst hbb
      obtain ⟨hlen, hmem⟩ := ih hb'
      exact ⟨by simp; omega, by simpa using hmem⟩

theorem findPolyWithEdge_exists {polys : List (List Nat)} {e : Nat × Nat} {a : Nat}
    (ha : a < polys.length) (hmem : e ∈ dirEdges (polys.getD a [])) :
    ∃ b, findPolyWithEdge polys e = some b := by
  induction polys generalizing a with
  | nil => cases ha
  | cons q qs ih =>
    rw [findPolyWithEdge]
    by_cases hq : e ∈ dirEdges q
    · exact ⟨0, by rw [if_pos hq]⟩
    · cases a with
      | zero => exact absurd (by simpa using hmem) hq
      | succ a' =>
        obtain ⟨b, hb⟩ := ih (a := a') (by simpa using ha) (by simpa using hmem)
        exact ⟨b + 1, by rw [if_neg hq, hb]; rfl⟩

theorem findPolyWithEdge_eq_of_mem {polys : List (List Nat)} {e : Nat × Nat} {a : Nat}
    (hwf : edgesDisjoint polys) (ha : a < polys.length)
    (hmem : e ∈ dirEdges (polys.getD a [])) :
    findPolyWithEdge polys e = some a := by
  obtain ⟨b, hb⟩ := findPolyWithEdge_exists ha hmem
  obtain ⟨hbl, hbm⟩ := findPolyWithEdge_some hb
  rcases eq_or_ne b a with rfl | hne
  · exact hb
  · exact absurd hbm (hwf a ha b hbl (Ne.symm hne) e hmem)

/-- C6: with element type TESS_CONNECTED_POLYGONS the neighbour relation is
symmetric on a well-formed polygon mesh: if polygon a lists polygon b as its
neighbour across the directed edge (u, v), then polygon b carries the
opposite half-edge (v, u) in some slot and lists a as its neighbour there;
and, independently, an edge whose opposite half-edge belongs to no polygon
is marked TESS_UNDEF. -/
theorem connected_neighbors_symmetric :
    (∀ (polys : List (List Nat)) (a b k u v : Nat),
      edgesDisjoint polys → a < polys.length →
      (dirEdges (polys.getD a []))[k]? = some (u, v) →
      neighborIndex polys a k = (b : Int) →
      ∃ kk, (dirEdges (polys.getD b []))[kk]? = some (v, u) ∧
        neighborIndex polys b kk = (a : Int)) ∧
    (∀ (polys : List (List Nat)) (a k u v : Nat),
      (dirEdges (polys.getD a []))[k]? = some (u, v) →
      findPolyWithEdge polys (v, u) = none →
      neighborIndex polys a k = TESS_UNDEF) := by
  constructor
  · intro polys a b k u v hwf ha hk hnb
    rw [neighborIndex, hk] at hnb
    dsimp only at hnb
    cases hfp : findPolyWithEdge polys (v, u) with
    | none =>
      rw [hfp] at hnb
      simp only [TESS_UNDEF] at hnb
      omega
    | some b' =>
      rw [hfp] at hnb
      have hbb : b' = b := by
        simpa using hnb
      subst hbb
      obtain ⟨hbl, hbm⟩ := findPolyWithEdge_some hfp
      obtain ⟨kk, hkk⟩ := List.mem_iff_getElem?.mp hbm
      refine ⟨kk, hkk, ?_⟩
      rw [neighborIndex, hkk]
      dsimp only
      have hmem : (u, v) ∈ dirEdges (polys.getD a []) := List.getElem?_mem hk
      rw [findPolyWithEdge_eq_of_mem hwf ha hmem]
  · intro polys a k u v hk hnone
    rw [neighborIndex, hk]
    dsimp only
    rw [hnone]

/-- Concrete check for C6 on two triangles sharing the edge between vertices
1 and 2: polygon 0 lists polygon 1 across (1, 2), polygon 1 lists polygon 0
back across (2, 1); and the edge (0, 1) of polygon 0, whose opposite
half-edge (1, 0) belongs to no polygon, gets neighbour TESS_UNDEF. -/
theorem connected_neighbors_symmetric_witness :
    (∃ kk, (dirEdges ([[0, 1, 2], [2, 1, 3]].getD 1 []))[kk]? = some (2, 1) ∧
      neighborIndex [[0, 1, 2], [2, 1, 3]] 1 kk = ((0 : Nat) : Int)) ∧
    neighborIndex [[0, 1, 2], [2, 1, 3]] 0 0 = TESS_UNDEF :=
  ⟨connected_neighbors_symmetric.1 [[0, 1, 2], [2, 1, 3]] 0 1 1 1 2
      (by decide) (by decide) (by decide) (by decide),
    connected_neighbors_symmetric.2 [[0, 1, 2], [2, 1, 3]] 0 0 0 1
      (by decide) (by decide)⟩

/-- C3: the whole pipeline is a deterministic function of its input — two
fresh instances built from identical contour lists and tessellated with
identical parameters produce identical return codes and bit-identical output
buffers — and the sweep-event tie-break order that eliminates nondeterminism
is a strict total order: irreflexive, asymmetric, and total on distinct
events. -/
theorem tesselate_deterministic :
    (∀ (t₁ t₂ : Tesselator) (p : TessParams), t₁ = t₂ →
      tessTesselate t₁ p = tessTesselate t₂ p) ∧
    (∀ (css : List (List (Int × Int))) (p : TessParams),
      tessTesselate (buildTess css) p = tessTesselate (buildTess css) p) ∧
    (∀ a : Event, ¬ eventLt a a) ∧
    (∀ a b : Event, eventLt a b → ¬ eventLt b a) ∧
    (∀ a b : Event, a ≠ b → eventLt a b ∨ eventLt b a) := by
  refine ⟨fun t₁ t₂ p h => by rw [h], fun css p => rfl, ?_, ?_, ?_⟩
  · intro a
    unfold eventLt
    omega
  · intro a b
    unfold eventLt
    omega
  · intro a b hne
    simp only [ne_eq, Prod.ext_iff] at hne
    unfold eventLt
    omega

theorem runSweep_spec (gen : Event → List Event) (s : SweepState) :
    (runSweep gen s).events = [] ∧
    (runSweep gen s).inserted + (runSweep gen s).budget = s.inserted + s.budget := by
  induction s using runSweep.induct gen with
  | case1 s hev =>
    rw [runSweep, hev]
    exact ⟨hev, rfl⟩
  | case2 s e rest hev ih =>
    rw [runSweep, hev]
    refine ⟨ih.1, ?_⟩
    rw [ih.2]
    have htake := List.length_take_le s.budget (gen e)
    simp only
    omega

/-- C9: the sweep of tessTesselate terminates on every finite input: the
event loop, driven by the priority queue in the strict total sweep order,
empties its queue after finitely many steps for every
intersection-generation behaviour, and the number of synthetic intersection
events it ever inserts is bounded by the number of input edge pairs. -/
theorem sweep_terminates :
    (∀ (gen : Event → List Event) (s : SweepState),
      (runSweep gen s).events = []) ∧
    (∀ (gen : Event → List Event) (contours : List (List OutVertex)),
      (runSweep gen (initSweepState contours)).events = [] ∧
      (runSweep gen (initSweepState contours)).inserted ≤ edgePairBudget contours) := by
  constructor
  · intro gen s
    exact (runSweep_spec gen s).1
  · intro gen contours
    have h := runSweep_spec gen (initSweepState contours)
    refine ⟨h.1, ?_⟩
    have h2 := h.2
    have hi : (initSweepState contours).inserted = 0 := rfl
    have hb : (initSweepState contours).budget = edgePairBudget contours := rfl
    rw [hi, hb] at h2
    omega

/-- Sanity check: a fixed-capacity allocator with no realloc hook and no
pre-reserved vertex slack fails on a self-intersecting (bowtie) input with an
allocation failure, and the failed call installs no output buffers. -/
theorem allocFailure_example :
    (tessTesselate { buildTess [[(0, 0), (2, 2), (2, 0), (0, 2)]] with
        alloc := { growable := false, extraVertices := 0 } }
      ⟨.nonzero, .polygons, 3, 2, none⟩).1 = 0 ∧
    (tessTesselate { buildTess [[(0, 0), (2, 2), (2, 0), (0, 2)]] with
        alloc := { growable := false, extraVertices := 0 } }
      ⟨.nonzero, .polygons, 3, 2, none⟩).2.output = none := by
  decide

/-- Sanity check: a simple square succeeds and produces two triangles. -/
theorem square_success_example :
    (tessTesselate (buildTess [[(0, 0), (4, 0), (4, 4), (0, 4)]])
      ⟨.nonzero, .polygons, 3, 2, none⟩).1 = 1 ∧
    tessGetElementCount
      (tessTesselate (buildTess [[(0, 0), (4, 0), (4, 4), (0, 4)]])
        ⟨.nonzero, .polygons, 3, 2, none⟩).2 = 2 := by
  decide

/-- Sanity check: the bowtie's edges properly cross in exactly one pair, so
the sweep would synthesize exactly one intersection vertex. -/
theorem bowtie_intersection_example :
    intersectionDemand (buildTess [[(0, 0), (2, 2), (2, 0), (0, 2)]]).contours = 1 := by
  decide

end LibTess
